import Mathlib

/-!
Verification of the clocker time-log core: a shallow embedding of the
day-entry state machine, its tabular codec and the update engine, with
theorems settling the specified properties.

Dates and times are modelled abstractly: `chrono::NaiveDate` as an integer
(day number) and `chrono::NaiveTime` as an integer (minute of day).  The
claims only use equality and ordering of dates and equality of times, which
these models provide faithfully.
-/

namespace Clocker

abbrev NaiveDate := Int
abbrev NaiveTime := Int

/-- The five-variant day state of `timelogentry.rs` (`enum DayState`). -/
inductive DayState where
  | FreshDay : DayState
  | MorningStarted (start_am : NaiveTime) : DayState
  | MorningFinished (start_am end_am : NaiveTime) : DayState
  | AfternoonStarted (start_am end_am start_pm : NaiveTime) : DayState
  | DayFinished (start_am end_am start_pm end_pm : NaiveTime) : DayState
deriving DecidableEq, Repr

/-- One line of the log: `struct TimeLogEntry { date, state }`. -/
structure TimeLogEntry where
  date : NaiveDate
  state : DayState
deriving DecidableEq, Repr

/-- Constructor `TimeLogEntry::new(date, start_am)`: a brand new line in `MorningStarted`. -/
def TimeLogEntry.new (date : NaiveDate) (start_am : NaiveTime) : TimeLogEntry :=
  { date := date, state := DayState.MorningStarted start_am }

/-- Model of `TimeLogEntry::transition(time)`: advance the state by one step;
`DayFinished` maps to itself. -/
def TimeLogEntry.transition (e : TimeLogEntry) (time : NaiveTime) : TimeLogEntry :=
  let new_state :=
    match e.state with
    | DayState.FreshDay => DayState.MorningStarted time
    | DayState.MorningStarted start_am => DayState.MorningFinished start_am time
    | DayState.MorningFinished start_am end_am =>
        DayState.AfternoonStarted start_am end_am time
    | DayState.AfternoonStarted start_am end_am start_pm =>
        DayState.DayFinished start_am end_am start_pm time
    | DayState.DayFinished start_am end_am start_pm end_pm =>
        DayState.DayFinished start_am end_am start_pm end_pm
  { e with state := new_state }

/-- The flat five-column wire record `struct TimeLogEntryDTO`; the four time
cells are optional (an empty cell is `none`). -/
structure TimeLogEntryDTO where
  date : NaiveDate
  start_am : Option NaiveTime := none
  end_am : Option NaiveTime := none
  start_pm : Option NaiveTime := none
  end_pm : Option NaiveTime := none
deriving DecidableEq, Repr

/-- Decode: `impl From<TimeLogEntryDTO> for TimeLogEntry`, the leftmost-gap
match on the four optional cells. -/
def TimeLogEntry.fromDTO (dto : TimeLogEntryDTO) : TimeLogEntry :=
  let state :=
    match dto.start_am, dto.end_am, dto.start_pm, dto.end_pm with
    | some start_am, some end_am, some start_pm, some end_pm =>
        DayState.DayFinished start_am end_am start_pm end_pm
    | some start_am, some end_am, some start_pm, none =>
        DayState.AfternoonStarted start_am end_am start_pm
    | some start_am, some end_am, none, _ => DayState.MorningFinished start_am end_am
    | some start_am, none, _, _ => DayState.MorningStarted start_am
    | none, _, _, _ => DayState.FreshDay
  { date := dto.date, state := state }

/-- Encode: `impl From<TimeLogEntry> for TimeLogEntryDTO`, populating the
prefix of optional cells the variant carries. -/
def TimeLogEntryDTO.fromEntry (value : TimeLogEntry) : TimeLogEntryDTO :=
  match value.state with
  | DayState.FreshDay => { date := value.date }
  | DayState.MorningStarted start_am => { date := value.date, start_am := some start_am }
  | DayState.MorningFinished sa ea =>
      { date := value.date, start_am := some sa, end_am := some ea }
  | DayState.AfternoonStarted sa ea sp =>
      { date := value.date, start_am := some sa, end_am := some ea, start_pm := some sp }
  | DayState.DayFinished sa ea sp ep =>
      { date := value.date, start_am := some sa, end_am := some ea,
        start_pm := some sp, end_pm := some ep }

/-- A per-record error of the csv reader (`csv::Error`), abstract: only its
identity matters to the aggregation logic. -/
abbrev CsvError := Nat

/-- Error type `enum ClockerError` of `error.rs`. -/
inductive ClockerError where
  | ShiftComplete : ClockerError
  | FileParseError (errors : List CsvError) : ClockerError
  | Csv (e : CsvError) : ClockerError
  | Io : ClockerError
deriving DecidableEq, Repr

/-- Action type `enum UpdateAction` of `timelog.rs`. -/
inductive UpdateAction where
  | NewDay (date : NaiveDate) (time : NaiveTime) : UpdateAction
  | FillSlot (time : NaiveTime) : UpdateAction
deriving DecidableEq, Repr

/-- Main state `struct TimeLog { entries, today, current_time }`. -/
structure TimeLog where
  entries : List TimeLogEntry
  today : NaiveDate
  current_time : NaiveTime
deriving DecidableEq, Repr

/-- Model of `TimeLog::empty()`; `today` and `current_time` are the injected clock
sample that `TimeLog::new` takes from `Local::now()`. -/
def TimeLog.empty (today : NaiveDate) (current_time : NaiveTime) : TimeLog :=
  { entries := [], today := today, current_time := current_time }

/-- Model of `TimeLog::determine_action`: decide between appending a new day, filling
the next slot of the last entry, or failing on a finished day. -/
def TimeLog.determine_action (self : TimeLog) : Except ClockerError UpdateAction :=
  match self.entries.getLast? with
  | none => Except.ok (UpdateAction.NewDay self.today self.current_time)
  | some last_entry =>
      if last_entry.date ≠ self.today then
        Except.ok (UpdateAction.NewDay self.today self.current_time)
      else
        match last_entry.state with
        | DayState.DayFinished _ _ _ _ => Except.error ClockerError.ShiftComplete
        | _ => Except.ok (UpdateAction.FillSlot self.current_time)

/-- Model of `Vec::last_mut` followed by an in-place mutation of the last element,
as used by `apply_action`'s `FillSlot` branch: a no-op on the empty list. -/
def modifyLast (l : List TimeLogEntry) (f : TimeLogEntry → TimeLogEntry) :
    List TimeLogEntry :=
  match l.getLast? with
  | none => l
  | some last_entry => l.dropLast ++ [f last_entry]

/-- Model of `TimeLog::apply_action`. -/
def TimeLog.apply_action (self : TimeLog) (action : UpdateAction) : TimeLog :=
  match action with
  | UpdateAction.NewDay date time =>
      { self with entries := self.entries ++ [TimeLogEntry.new date time] }
  | UpdateAction.FillSlot time =>
      { self with entries := modifyLast self.entries (fun e => e.transition time) }

/-- Model of `TimeLog::update`: determine the action, then apply it. -/
def TimeLog.update (self : TimeLog) : Except ClockerError TimeLog := do
  let action ← self.determine_action
  return self.apply_action action

/-- The record-reading loop of `TimeLog::from_file`: partition the per-record
results the csv reader yields into decoded entries and errors, keeping each
side's order. -/
def collectRows : List (Except CsvError TimeLogEntry) →
    List TimeLogEntry × List CsvError
  | [] => ([], [])
  | Except.ok log :: rest =>
      let (entries, errors) := collectRows rest
      (log :: entries, errors)
  | Except.error e :: rest =>
      let (entries, errors) := collectRows rest
      (entries, e :: errors)

/-- Model of `TimeLog::from_file`.  The filesystem and the csv reader are external
collaborators, so the input is their observable behaviour: `none` when the
path does not exist, otherwise the list of per-record `deserialize` results.
`today`/`current_time` stand for the clock sample `TimeLog::new` takes. -/
def TimeLog.from_file (file : Option (List (Except CsvError TimeLogEntry)))
    (today : NaiveDate) (current_time : NaiveTime) : Except ClockerError TimeLog :=
  match file with
  | none => Except.ok (TimeLog.empty today current_time)
  | some rows =>
      let (entries, errors) := collectRows rows
      if errors.isEmpty then
        Except.ok { entries := entries, today := today, current_time := current_time }
      else
        Except.error (ClockerError.FileParseError errors)

/-- A physical line of the output file: the csv header row or one encoded
record. -/
inductive CsvLine where
  | header : CsvLine
  | record (dto : TimeLogEntryDTO) : CsvLine
deriving DecidableEq, Repr

/-- The csv crate writer with the default `has_headers(true)`, as driven by
`TimeLog::persist`'s serialize loop: the header row is emitted just before
the first record is serialized, so serializing zero records leaves the
(truncated) file empty — no header line is written. -/
def csvWrite (records : List TimeLogEntryDTO) : List CsvLine :=
  match records with
  | [] => []
  | records => CsvLine.header :: records.map CsvLine.record

/-- `TimeLog::persist`: serialize each entry in order through the csv writer;
the result is the content of the freshly created file, as lines. -/
def TimeLog.persist (self : TimeLog) : List CsvLine :=
  csvWrite (self.entries.map TimeLogEntryDTO.fromEntry)

/-- The csv crate reader with the default headers handling, as driven by
`TimeLog::from_file`: the first line is consumed as the header (an empty
file simply yields no records), and every subsequent line is deserialized
into a `TimeLogEntry` through the DTO. -/
def csvRead (lines : List CsvLine) : List (Except CsvError TimeLogEntry) :=
  (lines.drop 1).map fun line =>
    match line with
    | CsvLine.header => Except.error 0
    | CsvLine.record dto => Except.ok (TimeLogEntry.fromDTO dto)

/-- One update step on a bare entry list with an injected clock sample:
builds the `TimeLog` exactly as an invocation would and runs
`TimeLog::update`, keeping only the entries. -/
def updateEntries (entries : List TimeLogEntry) (today : NaiveDate)
    (now : NaiveTime) : Except ClockerError (List TimeLogEntry) :=
  (TimeLog.update { entries := entries, today := today, current_time := now }).map
    TimeLog.entries

/-- A sequence of invocations: run `update` once per `(today, now)` pair,
stopping at the first error. -/
def runUpdates : List (NaiveDate × NaiveTime) → List TimeLogEntry →
    Except ClockerError (List TimeLogEntry)
  | [], entries => Except.ok entries
  | (today, now) :: rest, entries =>
      match updateEntries entries today now with
      | Except.ok entries => runUpdates rest entries
      | Except.error e => Except.error e

/-- The dates of a log's entries, in sequence order. -/
def datesOf (l : List TimeLogEntry) : List NaiveDate :=
  l.map TimeLogEntry.date

/-! The standalone pipeline of `main.rs`.

`main.rs` carries its own flat entry type with four nullable columns and its
own `determine_action` / `apply_action` pair; claim C10 is about these. -/

/-- Entry type `struct TimeLogEntry` of `main.rs`: a flat record with four optional
cells. -/
structure MainTimeLogEntry where
  date : NaiveDate
  start_am : Option NaiveTime
  end_am : Option NaiveTime
  start_pm : Option NaiveTime
  end_pm : Option NaiveTime
deriving DecidableEq, Repr

/-- Constructor `TimeLogEntry::new` of `main.rs`. -/
def MainTimeLogEntry.new (date : NaiveDate) (start_am : NaiveTime) :
    MainTimeLogEntry :=
  { date := date, start_am := some start_am, end_am := none,
    start_pm := none, end_pm := none }

/-- Slot selector `enum TimeOfDay` of `main.rs`. -/
inductive TimeOfDay where
  | EndAM : TimeOfDay
  | StartPM : TimeOfDay
  | EndPM : TimeOfDay
deriving DecidableEq, Repr

/-- Action type `enum UpdateAction` of `main.rs`. -/
inductive MainUpdateAction where
  | NewDay (date : NaiveDate) (time : NaiveTime) : MainUpdateAction
  | FillSlot (tod : TimeOfDay) (time : NaiveTime) : MainUpdateAction
  | NoChange : MainUpdateAction
deriving DecidableEq, Repr

/-- Model of `determine_action` of `main.rs`. -/
def mainDetermineAction (entries : List MainTimeLogEntry) (date : NaiveDate)
    (time : NaiveTime) : MainUpdateAction :=
  match entries.getLast? with
  | none => MainUpdateAction.NewDay date time
  | some last_entry =>
      if last_entry.date ≠ date then MainUpdateAction.NewDay date time
      else if last_entry.end_am.isNone then
        MainUpdateAction.FillSlot TimeOfDay.EndAM time
      else if last_entry.start_pm.isNone then
        MainUpdateAction.FillSlot TimeOfDay.StartPM time
      else if last_entry.end_pm.isNone then
        MainUpdateAction.FillSlot TimeOfDay.EndPM time
      else MainUpdateAction.NoChange

/-- Model of `apply_action` of `main.rs`.  The `FillSlot` branch calls
`last_mut().unwrap()`; the `unwrap` of an empty vector panics, modelled as
`none`. -/
def mainApplyAction (entries : List MainTimeLogEntry)
    (action : MainUpdateAction) : Option (List MainTimeLogEntry) :=
  match action with
  | MainUpdateAction.NoChange => some entries
  | MainUpdateAction.NewDay date time =>
      some (entries ++ [MainTimeLogEntry.new date time])
  | MainUpdateAction.FillSlot tod time =>
      match entries.getLast? with
      | none => none
      | some last_entry =>
          let new_entry :=
            match tod with
            | TimeOfDay.EndAM => { last_entry with end_am := some time }
            | TimeOfDay.StartPM => { last_entry with start_pm := some time }
            | TimeOfDay.EndPM => { last_entry with end_pm := some time }
          some (entries.dropLast ++ [new_entry])

/-- Recognizer for a failed per-record decode, used to count malformed
rows. -/
def isErrRow (r : Except CsvError TimeLogEntry) : Bool :=
  match r with
  | Except.error _ => true
  | Except.ok _ => false

/-- A concrete empty log used by witnesses. -/
def sampleEmpty : TimeLog := { entries := [], today := 0, current_time := 0 }

/-- The concrete log `sampleEmpty.update` produces. -/
def sampleOne : TimeLog :=
  { entries := [TimeLogEntry.new 0 0], today := 0, current_time := 0 }

/-- A concrete log whose last entry is finished today, used by witnesses. -/
def sampleFinished : TimeLog :=
  { entries := [⟨0, DayState.DayFinished 1 2 3 4⟩], today := 0, current_time := 5 }

/-! ### Helper lemmas -/

theorem dropLast_append_of_getLast (l : List TimeLogEntry) (e : TimeLogEntry)
    (h : l.getLast? = some e) : l.dropLast ++ [e] = l := by
  have hne : l ≠ [] := by intro hn; subst hn; simp at h
  have h2 : l.getLast hne = e := by
    have hg := List.getLast?_eq_getLast l hne
    rw [hg] at h
    exact Option.some.inj h
  rw [← h2]
  exact List.dropLast_append_getLast hne

theorem TimeLog.update_eq (self : TimeLog) :
    self.update = self.determine_action.map self.apply_action := by
  unfold TimeLog.update
  cases self.determine_action <;> rfl

theorem determine_action_nil (self : TimeLog)
    (h : self.entries.getLast? = none) :
    self.determine_action =
      Except.ok (UpdateAction.NewDay self.today self.current_time) := by
  unfold TimeLog.determine_action
  rw [h]

theorem determine_action_newday (self : TimeLog) (e : TimeLogEntry)
    (h : self.entries.getLast? = some e) (hne : e.date ≠ self.today) :
    self.determine_action =
      Except.ok (UpdateAction.NewDay self.today self.current_time) := by
  unfold TimeLog.determine_action
  rw [h]
  simp [hne]

theorem determine_action_fill (self : TimeLog) (e : TimeLogEntry)
    (h : self.entries.getLast? = some e) (heq : e.date = self.today)
    (hnf : ∀ a b c d, e.state ≠ DayState.DayFinished a b c d) :
    self.determine_action =
      Except.ok (UpdateAction.FillSlot self.current_time) := by
  have hd : ¬(e.date ≠ self.today) := by simp [heq]
  simp only [TimeLog.determine_action, h]
  rw [if_neg hd]

theorem determine_action_complete (self : TimeLog) (e : TimeLogEntry)
    (a b c d : NaiveTime)
    (h : self.entries.getLast? = some e) (heq : e.date = self.today)
    (hs : e.state = DayState.DayFinished a b c d) :
    self.determine_action = Except.error ClockerError.ShiftComplete := by
  unfold TimeLog.determine_action
  rw [h]
  simp [heq, hs]

theorem apply_action_newday (self : TimeLog) (d : NaiveDate) (t : NaiveTime) :
    self.apply_action (UpdateAction.NewDay d t) =
      { self with entries := self.entries ++ [TimeLogEntry.new d t] } := rfl

theorem modifyLast_of_getLast (l : List TimeLogEntry) (e : TimeLogEntry)
    (f : TimeLogEntry → TimeLogEntry) (h : l.getLast? = some e) :
    modifyLast l f = l.dropLast ++ [f e] := by
  unfold modifyLast
  rw [h]

theorem apply_action_fill (self : TimeLog) (e : TimeLogEntry) (t : NaiveTime)
    (h : self.entries.getLast? = some e) :
    self.apply_action (UpdateAction.FillSlot t) =
      { self with entries := self.entries.dropLast ++ [e.transition t] } := by
  have hdef : self.apply_action (UpdateAction.FillSlot t) =
      { self with entries := modifyLast self.entries fun x => x.transition t } := rfl
  rw [hdef, modifyLast_of_getLast _ e _ h]

theorem transition_date (e : TimeLogEntry) (t : NaiveTime) :
    (e.transition t).date = e.date := rfl

/-! ### Claim theorems -/

/-- Claim C7: `transition` advances a day state by exactly one step of the
five-row table, and leaves `DayFinished` unchanged for every supplied
time. -/
theorem transition_table (d : NaiveDate) (t a b c e : NaiveTime) :
    TimeLogEntry.transition ⟨d, DayState.FreshDay⟩ t =
      ⟨d, DayState.MorningStarted t⟩ ∧
    TimeLogEntry.transition ⟨d, DayState.MorningStarted a⟩ t =
      ⟨d, DayState.MorningFinished a t⟩ ∧
    TimeLogEntry.transition ⟨d, DayState.MorningFinished a b⟩ t =
      ⟨d, DayState.AfternoonStarted a b t⟩ ∧
    TimeLogEntry.transition ⟨d, DayState.AfternoonStarted a b c⟩ t =
      ⟨d, DayState.DayFinished a b c t⟩ ∧
    TimeLogEntry.transition ⟨d, DayState.DayFinished a b c e⟩ t =
      ⟨d, DayState.DayFinished a b c e⟩ :=
  ⟨rfl, rfl, rfl, rfl, rfl⟩

/-- Claim C3: decoding the flat record produced by encoding any entry gives
back that entry — decode after encode is the identity on `TimeLogEntry`. -/
theorem decode_encode_id (e : TimeLogEntry) :
    TimeLogEntry.fromDTO (TimeLogEntryDTO.fromEntry e) = e := by
  cases e with
  | mk date state => cases state <;> rfl

/-- Claim C4: decoding selects the variant of the longest filled prefix of
the four optional cells, per the decision table, and every cell after the
first absent one is ignored (the later cells are universally quantified). -/
theorem decode_decision_table (dt : NaiveDate) (a b c d : NaiveTime)
    (ob oc od : Option NaiveTime) :
    TimeLogEntry.fromDTO ⟨dt, none, ob, oc, od⟩ = ⟨dt, DayState.FreshDay⟩ ∧
    TimeLogEntry.fromDTO ⟨dt, some a, none, oc, od⟩ =
      ⟨dt, DayState.MorningStarted a⟩ ∧
    TimeLogEntry.fromDTO ⟨dt, some a, some b, none, od⟩ =
      ⟨dt, DayState.MorningFinished a b⟩ ∧
    TimeLogEntry.fromDTO ⟨dt, some a, some b, some c, none⟩ =
      ⟨dt, DayState.AfternoonStarted a b c⟩ ∧
    TimeLogEntry.fromDTO ⟨dt, some a, some b, some c, some d⟩ =
      ⟨dt, DayState.DayFinished a b c d⟩ :=
  ⟨rfl, rfl, rfl, rfl, rfl⟩

theorem update_ok_spec (self out : TimeLog) :
    self.update = Except.ok out ↔
      ((self.entries = [] ∨
          ∃ e, self.entries.getLast? = some e ∧ e.date ≠ self.today) ∧
        out = { self with entries :=
          self.entries ++ [TimeLogEntry.new self.today self.current_time] }) ∨
      (∃ e, self.entries.getLast? = some e ∧ e.date = self.today ∧
        (∀ a b c d, e.state ≠ DayState.DayFinished a b c d) ∧
        out = { self with entries :=
          self.entries.dropLast ++ [e.transition self.current_time] }) := by
  constructor
  · intro h
    rw [TimeLog.update_eq] at h
    cases hl : self.entries.getLast? with
    | none =>
      rw [determine_action_nil self hl] at h
      left
      refine ⟨Or.inl (List.getLast?_eq_none_iff.mp hl), ?_⟩
      exact (Except.ok.inj h).symm
    | some e =>
      by_cases hd : e.date = self.today
      · cases hstate : e.state with
        | DayFinished a b c d =>
          rw [determine_action_complete self e a b c d hl hd hstate] at h
          exact absurd h (by simp [Except.map])
        | _ =>
          have hnf : ∀ a b c d, e.state ≠ DayState.DayFinished a b c d := by
            simp [hstate]
          rw [determine_action_fill self e hl hd hnf] at h
          right
          refine ⟨e, rfl, hd, hnf, ?_⟩
          have happ := apply_action_fill self e self.current_time hl
          rw [show Except.map self.apply_action
                (Except.ok (UpdateAction.FillSlot self.current_time)) =
              Except.ok (self.apply_action
                (UpdateAction.FillSlot self.current_time)) from rfl,
            happ] at h
          exact (Except.ok.inj h).symm
      · rw [determine_action_newday self e hl hd] at h
        left
        refine ⟨Or.inr ⟨e, rfl, hd⟩, ?_⟩
        exact (Except.ok.inj h).symm
  · intro h
    rw [TimeLog.update_eq]
    rcases h with ⟨hcond, hout⟩ | ⟨e, hl, hd, hnf, hout⟩
    · rcases hcond with hnil | ⟨e, hl, hne⟩
      · have hl : self.entries.getLast? = none := by simp [hnil]
        rw [determine_action_nil self hl, hout]
        rfl
      · rw [determine_action_newday self e hl hne, hout]
        rfl
    · rw [determine_action_fill self e hl hd hnf, hout]
      show Except.ok (self.apply_action (UpdateAction.FillSlot self.current_time)) = _
      rw [apply_action_fill self e self.current_time hl]

/-- Claim C1: for every log and clock sample, a successful `update` either
appends the fresh entry `(today, MorningStarted now)` — exactly when the log
is empty or its last entry's date differs from `today` — or advances the
last entry by one `transition` step with `now`; these are the only two
successful outcomes. -/
theorem update_characterization (self out : TimeLog) :
    self.update = Except.ok out ↔
      ((self.entries = [] ∨
          ∃ e, self.entries.getLast? = some e ∧ e.date ≠ self.today) ∧
        out = { self with entries :=
          self.entries ++ [TimeLogEntry.new self.today self.current_time] }) ∨
      (∃ e, self.entries.getLast? = some e ∧ e.date = self.today ∧
        (∀ a b c d, e.state ≠ DayState.DayFinished a b c d) ∧
        out = { self with entries :=
          self.entries.dropLast ++ [e.transition self.current_time] }) :=
  update_ok_spec self out

/-- Witness for C1: updating the concrete empty log appends the single
fresh entry. -/
theorem update_characterization_witness :
    sampleEmpty.update = Except.ok sampleOne :=
  (update_characterization sampleEmpty sampleOne).mpr (Or.inl ⟨Or.inl rfl, rfl⟩)

/-- Claim C2: when the last entry is `DayFinished` and dated today, `update`
fails with `ShiftComplete`; no updated log is produced, so the log is
unchanged and nothing can be written. -/
theorem closed_day_frozen (self : TimeLog) (e : TimeLogEntry)
    (a b c d : NaiveTime)
    (h : self.entries.getLast? = some e) (hdate : e.date = self.today)
    (hstate : e.state = DayState.DayFinished a b c d) :
    self.update = Except.error ClockerError.ShiftComplete := by
  rw [TimeLog.update_eq, determine_action_complete self e a b c d h hdate hstate]
  rfl

/-- Witness for C2: the concrete finished log fails with `ShiftComplete`. -/
theorem closed_day_frozen_witness :
    sampleFinished.update = Except.error ClockerError.ShiftComplete :=
  closed_day_frozen sampleFinished ⟨0, DayState.DayFinished 1 2 3 4⟩ 1 2 3 4
    rfl rfl rfl

/-- Claim C9: a successful `update` either appends exactly one entry at the
end or rewrites only the last entry; the prefix of all earlier entries is
unchanged, and `transition` never changes an entry's date. -/
theorem update_frame (self out : TimeLog) (h : self.update = Except.ok out) :
    (out.entries =
        self.entries ++ [TimeLogEntry.new self.today self.current_time] ∨
      ∃ e, self.entries.getLast? = some e ∧
        out.entries = self.entries.dropLast ++ [e.transition self.current_time]) ∧
    self.entries.dropLast <+: out.entries ∧
    ∀ (e : TimeLogEntry) (t : NaiveTime), (e.transition t).date = e.date := by
  rcases (update_ok_spec self out).mp h with ⟨_, hout⟩ | ⟨e, hl, _, _, hout⟩
  · subst hout
    refine ⟨Or.inl rfl, ?_, fun e t => rfl⟩
    exact ( List.dropLast_prefix self.entries).trans ( List.prefix_append _ _)
  · subst hout
    exact ⟨Or.inr ⟨e, hl, rfl⟩, List.prefix_append _ _, fun e t => rfl⟩

/-- Witness for C9: the frame property at the concrete empty log. -/
theorem update_frame_witness :
    sampleEmpty.entries.dropLast <+: sampleOne.entries :=
  (update_frame sampleEmpty sampleOne rfl).2.1

/-- Claim C10: on any entry list, `determine_action` of `main.rs` returns
`FillSlot` only when the list is non-empty, and feeding its action into
`apply_action` never hits the `unwrap`-panic (modelled as `none`) of the
`FillSlot` branch. -/
theorem main_fillSlot_safe (entries : List MainTimeLogEntry) (d : NaiveDate)
    (t : NaiveTime) :
    (∀ tod time,
      mainDetermineAction entries d t = MainUpdateAction.FillSlot tod time →
        entries ≠ []) ∧
    (mainApplyAction entries (mainDetermineAction entries d t)).isSome = true := by
  cases hl : entries.getLast? with
  | none =>
    constructor
    · intro tod time heq
      simp [mainDetermineAction, hl] at heq
    · simp [mainDetermineAction, mainApplyAction, hl]
  | some e =>
    have hne : entries ≠ [] := by
      intro hnil
      rw [hnil] at hl
      simp at hl
    refine ⟨fun _ _ _ => hne, ?_⟩
    simp only [mainDetermineAction, hl]
    split_ifs <;> simp [mainApplyAction, hl]

/-- Witness for C10: the composition is panic-free on the concrete empty
list. -/
theorem main_fillSlot_safe_witness :
    (mainApplyAction [] (mainDetermineAction [] 0 0)).isSome = true :=
  (main_fillSlot_safe [] 0 0).2

theorem collectRows_errors_length (rows : List (Except CsvError TimeLogEntry)) :
    (collectRows rows).2.length = rows.countP isErrRow := by
  induction rows with
  | nil => rfl
  | cons r rest ih =>
    cases r with
    | ok a =>
      have hr : collectRows (Except.ok a :: rest) =
          (a :: (collectRows rest).1, (collectRows rest).2) := rfl
      rw [hr, List.countP_cons]
      simp [isErrRow, ih]
    | error e =>
      have hr : collectRows (Except.error e :: rest) =
          ((collectRows rest).1, e :: (collectRows rest).2) := rfl
      rw [hr, List.countP_cons]
      simp [isErrRow, ih]

/-- Claim C5: when `k ≥ 1` of the records fail to decode, `from_file` fails
with `FileParseError` carrying exactly `k` per-record errors; no log of the
successfully decoded records is returned. -/
theorem load_error_aggregation (rows : List (Except CsvError TimeLogEntry))
    (today : NaiveDate) (now : NaiveTime)
    (hk : 0 < rows.countP isErrRow) :
    ∃ errs, TimeLog.from_file (some rows) today now =
        Except.error (ClockerError.FileParseError errs) ∧
      errs.length = rows.countP isErrRow := by
  refine ⟨(collectRows rows).2, ?_, collectRows_errors_length rows⟩
  cases hc : (collectRows rows).2 with
  | nil =>
    exfalso
    have hlen := collectRows_errors_length rows
    rw [hc] at hlen
    simp at hlen
    omega
  | cons x xs =>
    simp [TimeLog.from_file, hc]

/-- Witness for C5: a concrete two-record file with one malformed record. -/
theorem load_error_aggregation_witness :
    ∃ errs,
      TimeLog.from_file
          (some [Except.error 7, Except.ok ⟨0, DayState.FreshDay⟩]) 0 0 =
        Except.error (ClockerError.FileParseError errs) ∧
      errs.length =
        ([Except.error 7, Except.ok ⟨0, DayState.FreshDay⟩] :
          List (Except CsvError TimeLogEntry)).countP isErrRow :=
  load_error_aggregation [Except.error 7, Except.ok ⟨0, DayState.FreshDay⟩] 0 0
    (by decide)

/-- Counterexample for C6: saving the empty log obtained from a nonexistent
path does not produce a header-only file — the csv writer emits its header
only just before the first record, so the file comes out empty. -/
theorem persist_empty_no_header :
    ¬ (TimeLog.empty 0 0).persist = [CsvLine.header] := by decide

/-- Claim C6 as amended: loading a nonexistent path succeeds with the empty
log; saving that empty log produces an empty file (no header line, because
no record is ever serialized); loading that existing empty file again
yields the empty log. -/
theorem missing_file_round_trip (d t d2 t2 : Int) :
    TimeLog.from_file none d t = Except.ok (TimeLog.empty d t) ∧
    (TimeLog.empty d t).persist = [] ∧
    TimeLog.from_file (some (csvRead ((TimeLog.empty d t).persist))) d2 t2 =
      Except.ok (TimeLog.empty d2 t2) :=
  ⟨rfl, rfl, rfl⟩

theorem updateEntries_ok_shape (l l' : List TimeLogEntry) (d : NaiveDate)
    (t : NaiveTime) (h : updateEntries l d t = Except.ok l') :
    ((l.getLast? = none ∨ ∃ e, l.getLast? = some e ∧ e.date ≠ d) ∧
      l' = l ++ [TimeLogEntry.new d t]) ∨
    (∃ e, l.getLast? = some e ∧ e.date = d ∧
      l' = l.dropLast ++ [e.transition t]) := by
  unfold updateEntries at h
  cases hu : TimeLog.update { entries := l, today := d, current_time := t } with
  | error err => rw [hu] at h; exact absurd h (by simp [Except.map])
  | ok out =>
    rw [hu] at h
    have hout : out.entries = l' := Except.ok.inj h
    rcases (update_ok_spec _ out).mp hu with ⟨hcond, heq⟩ | ⟨e, hl, hd, _, heq⟩
    · left
      constructor
      · rcases hcond with hnil | ⟨e, hl, hne⟩
        · have hnil' : l = [] := hnil
          exact Or.inl (by simp [hnil'])
        · exact Or.inr ⟨e, hl, hne⟩
      · rw [← hout, heq]
    · right
      exact ⟨e, hl, hd, by rw [← hout, heq]⟩

theorem updateEntries_ok_dates (l l' : List TimeLogEntry) (d : NaiveDate)
    (t : NaiveTime) (h : updateEntries l d t = Except.ok l')
    (hs : List.Chain' (· < ·) (datesOf l))
    (hb : ∀ e ∈ l.getLast?, e.date ≤ d) :
    List.Chain' (· < ·) (datesOf l') ∧ ∀ e ∈ l'.getLast?, e.date = d := by
  rcases updateEntries_ok_shape l l' d t h with ⟨hcond, rfl⟩ | ⟨e, hl, hd, rfl⟩
  · constructor
    · have hdapp : datesOf (l ++ [TimeLogEntry.new d t]) = datesOf l ++ [d] := by
        simp [datesOf, TimeLogEntry.new]
      rw [hdapp, List.chain'_append]
      refine ⟨hs, List.chain'_singleton d, ?_⟩
      intro x hx y hy
      obtain rfl : d = y := by simpa using hy
      simp only [datesOf] at hx
      rcases hcond with hnone | ⟨e, hl, hne⟩
      · rw [List.getLast?_map, hnone] at hx
        simp at hx
      · rw [List.getLast?_map, hl] at hx
        obtain rfl : e.date = x := by simpa using hx
        exact lt_of_le_of_ne (hb e hl) hne
    · intro e' he'
      rw [List.getLast?_concat] at he'
      obtain rfl : TimeLogEntry.new d t = e' := by simpa using he'
      rfl
  · have hdrop : datesOf (l.dropLast ++ [e.transition t]) = datesOf l := by
      have hres := dropLast_append_of_getLast l e hl
      calc datesOf (l.dropLast ++ [e.transition t])
          = datesOf l.dropLast ++ [(e.transition t).date] := by simp [datesOf]
        _ = datesOf l.dropLast ++ [e.date] := by rw [transition_date]
        _ = datesOf (l.dropLast ++ [e]) := by simp [datesOf]
        _ = datesOf l := by rw [hres]
    constructor
    · rw [hdrop]; exact hs
    · intro e' he'
      rw [List.getLast?_concat] at he'
      obtain rfl : e.transition t = e' := by simpa using he'
      rw [transition_date]
      exact hd

theorem runUpdates_ok_chain (ps : List (NaiveDate × NaiveTime)) :
    ∀ (l0 l : List TimeLogEntry),
      List.Chain' (· ≤ ·) (ps.map Prod.fst) →
      List.Chain' (· < ·) (datesOf l0) →
      (∀ e ∈ l0.getLast?, ∀ p ∈ ps.head?, e.date ≤ p.1) →
      runUpdates ps l0 = Except.ok l →
      List.Chain' (· < ·) (datesOf l) := by
  induction ps with
  | nil =>
    intro l0 l _ hs _ h
    have : l0 = l := Except.ok.inj h
    subst this
    exact hs
  | cons p rest ih =>
    obtain ⟨d, t⟩ := p
    intro l0 l hmono hs hb h
    cases hu : updateEntries l0 d t with
    | error err => simp [runUpdates, hu] at h
    | ok l1 =>
      simp only [runUpdates, hu] at h
      have hb1 : ∀ e ∈ l0.getLast?, e.date ≤ d := by
        intro e he
        exact hb e he (d, t) rfl
      obtain ⟨hs1, hlast1⟩ := updateEntries_ok_dates l0 l1 d t hu hs hb1
      have hmono' : List.Chain' (· ≤ ·) (rest.map Prod.fst) := by
        have : (((d, t) :: rest).map Prod.fst) = d :: rest.map Prod.fst := rfl
        rw [this] at hmono
        exact hmono.tail
      refine ih l1 l hmono' hs1 ?_ h
      intro e he p hp
      have hed : e.date = d := hlast1 e he
      have hdp : d ≤ p.1 := by
        have hm := (List.chain'_cons'.mp hmono).1
        apply hm
        rw [List.head?_map, hp]
        rfl
      rw [hed]
      exact hdp

/-- Claim C8: starting from the empty log, any sequence of successful
`update` invocations with non-decreasing `today` values leaves the entry
dates strictly increasing in sequence order. -/
theorem update_monotone_dates (ps : List (NaiveDate × NaiveTime))
    (l : List TimeLogEntry)
    (hmono : List.Chain' (· ≤ ·) (ps.map Prod.fst))
    (h : runUpdates ps [] = Except.ok l) :
    List.Chain' (· < ·) (datesOf l) :=
  runUpdates_ok_chain ps [] l hmono (by simp [datesOf]) (by simp) h

/-- Witness for C8: two updates on consecutive days from the empty log. -/
theorem update_monotone_dates_witness :
    List.Chain' (· < ·)
      (datesOf [⟨0, DayState.MorningStarted 1⟩, ⟨1, DayState.MorningStarted 2⟩]) :=
  update_monotone_dates [(0, 1), (1, 2)]
    [⟨0, DayState.MorningStarted 1⟩, ⟨1, DayState.MorningStarted 2⟩]
    (List.chain'_cons.mpr ⟨by norm_num, List.chain'_singleton 1⟩) rfl

end Clocker
